import Mathlib

/-!
Verification development for the consul-go client library.

The session lifecycle manager (`session.go`) is embedded as a small state
machine: Go `time.Duration` values are modelled as `Int` nanosecond counts
(Go durations are signed 64-bit nanosecond counts), Go `error` values as an
inductive `GoError`, and the side effects performed by the single-execution
teardown gate (`sync.Once`) as an explicit event trace.  The endpoint type
and the shuffle algorithms are embedded from the endpoint source file that
is appended to `src/.circleci/config.yml`.  The balancing strategy layer
itself (`balancer.go` is not among the sources at hand, only its tests are)
is modelled from the specification text.
-/

namespace Consul

/-- Go `error` values, as an inductive: the two sentinel errors of the
`context` package plus arbitrary message errors. -/
inductive GoError where
  | canceled
  | deadlineExceeded
  | message (s : String)
deriving DecidableEq, Repr

/-- Nanoseconds in one second: Go `time.Second`. -/
def nanosPerSecond : Int := 1000000000

/-- Embedding of the `Session` struct of `session.go` (the `Client` pointer
field is dropped: it only selects the transport, which is external).
`Behavior` is a string type (`SessionBehavior`) in the source; durations are
`int64` nanosecond counts, hence `Int` here. -/
structure Session where
  Name : String
  ID : String
  Behavior : String
  LockDelay : Int
  TTL : Int
deriving DecidableEq, Repr

/-- The `Release` behavior constant. -/
def Release : String := "release"

/-- The `Delete` behavior constant. -/
def Delete : String := "delete"

/-- Default resolution performed at the top of `WithSession`
(session.go lines 73-83): empty behavior becomes `Release`, zero lock-delay
becomes 15 seconds, zero TTL becomes twice the (resolved) lock-delay. -/
def resolveDefaults (s : Session) : Session :=
  let s1 := if s.Behavior.length = 0 then { s with Behavior := Release } else s
  let s2 := if s1.LockDelay = 0 then { s1 with LockDelay := 15 * nanosPerSecond } else s1
  if s2.TTL = 0 then { s2 with TTL := 2 * s2.LockDelay } else s2

/-- Which context a derived context hangs off: `context.Background()`, the
caller's parent context, or the session context itself. -/
inductive CtxRef where
  | background
  | parent
  | session
deriving DecidableEq, Repr

/-- A context produced by `context.WithTimeout(parent, timeout)`: the parent
reference and the timeout duration. -/
structure TimeoutCtx where
  parent : CtxRef
  timeout : Int
deriving DecidableEq, Repr

/-- Observable side effects of the teardown body in `cancelWithError`
(session.go lines 172-181), in the order the code performs them. -/
inductive Event where
  | storeErr (e : GoError)
  | closeDone
  | destroySession (ctx : TimeoutCtx) (sid : String)
deriving DecidableEq, Repr

/-- Mutable state of a `sessionCtx` (session.go lines 130-136): whether the
`sync.Once` gate has fired, whether the `done` channel is closed, the value
held in the atomic error cell, and the trace of side effects performed. -/
structure CtxState where
  onceDone : Bool
  doneClosed : Bool
  errVal : Option GoError
  trace : List Event
deriving DecidableEq, Repr

/-- State of a freshly constructed `sessionCtx` (`newSessionCtx`): gate unused,
`done` channel open, no error stored. -/
def initialCtxState : CtxState :=
  { onceDone := false, doneClosed := false, errVal := none, trace := [] }

/-- Embedding of `(*sessionCtx).cancelWithError` (session.go lines 172-181).
The `sync.Once` gate makes the body run only on the first call.  The body
stores the error, closes `done`, and issues a destroy-session write on a fresh
`context.Background()`-rooted context with deadline `LockDelay`.  The result
of that write (`destroyRes`) is discarded by the source, so it does not occur
on the right-hand side. -/
def cancelWithError (lockDelay : Int) (sid : String) (e : GoError)
    (destroyRes : Option GoError) (s : CtxState) : CtxState :=
  if s.onceDone then s
  else
    { onceDone := true, doneClosed := true, errVal := some e,
      trace := s.trace ++
        [Event.storeErr e, Event.closeDone,
         Event.destroySession { parent := CtxRef.background, timeout := lockDelay } sid] }

/-- `(*sessionCtx).cancel` (session.go lines 168-170): cancellation with
`context.Canceled`. -/
def cancel (lockDelay : Int) (sid : String) (destroyRes : Option GoError)
    (s : CtxState) : CtxState :=
  cancelWithError lockDelay sid GoError.canceled destroyRes s

/-- Number of destroy-session writes recorded in a trace. -/
def destroyCalls (t : List Event) : Nat :=
  t.countP fun ev =>
    match ev with
    | Event.destroySession _ _ => true
    | _ => false

/-- The renewal period computed at the top of `(*sessionCtx).run`
(session.go line 188): `timeout := s.session.TTL / 3`, Go integer division. -/
def renewPeriod (ttl : Int) : Int := Int.tdiv ttl 3

/-- Static shape of the renewal loop set up by `run` (session.go lines
187-200): the ticker period, and the context each renew-session write runs
under — `context.WithTimeout(s, timeout)`, i.e. parented on the session
context itself with deadline equal to the period. -/
structure RenewalLoop where
  period : Int
  renewOp : TimeoutCtx
deriving DecidableEq, Repr

/-- The renewal loop built from a TTL (session.go lines 188, 200). -/
def renewalLoopOf (ttl : Int) : RenewalLoop :=
  let timeout := renewPeriod ttl
  { period := timeout,
    renewOp := { parent := CtxRef.session, timeout := timeout } }

/-- Whether a `context.WithTimeout` context is done, given whether its parent
is done and the time elapsed since its creation: it is done as soon as the
parent is done or its own deadline has passed. -/
def timeoutCtxDone (c : TimeoutCtx) (parentDone : Bool) (elapsed : Int) : Bool :=
  parentDone || decide (c.timeout ≤ elapsed)

/-- Outcome of one iteration of the renewal loop: either continue looping
with a (possibly updated) expiry deadline and context state, or exit the
loop with a final context state. -/
inductive TickOutcome where
  | next (deadline : Int) (st : CtxState)
  | stop (st : CtxState)
deriving DecidableEq, Repr

/-- Embedding of the ticker case of `(*sessionCtx).run` (session.go lines
199-213).  `now` is the tick time, `deadline` the previously computed expiry
deadline, `renewErr` the result of the renew-session write (`none` on
success).  On failure before the deadline the loop just continues; on failure
at or past the deadline the context is cancelled with the renew error and the
loop exits; on success the deadline advances to `now + ttl`. -/
def runTick (ttl lockDelay : Int) (sid : String) (deadline now : Int)
    (renewErr : Option GoError) (destroyRes : Option GoError)
    (st : CtxState) : TickOutcome :=
  match renewErr with
  | some e =>
      if now < deadline then TickOutcome.next deadline st
      else TickOutcome.stop (cancelWithError lockDelay sid e destroyRes st)
  | none => TickOutcome.next (now + ttl) st

/-- Externally observable view of a context: whether its done channel is
closed and what its `Err()` accessor returns. -/
structure CtxView where
  doneClosed : Bool
  errVal : Option GoError
deriving DecidableEq, Repr

/-- Modelled from the spec: `errorContext` (referenced by `WithSession` at
session.go line 96 but defined in a source file not at hand) returns an
already-cancelled derived context carrying the given error. -/
def errorContext (e : GoError) : CtxView :=
  { doneClosed := true, errVal := some e }

/-- Branching of `WithSession` on the create-session outcome (session.go
lines 88-102).  The create result is a parameter because the transport is
external.  Returns the view of the returned context and whether a background
renewal task was started (`newSessionCtx` starts one via `go s.run(...)`;
the failure path starts none). -/
def withSession (s : Session) (createResult : Except GoError String) :
    CtxView × Bool :=
  let _ := resolveDefaults s
  match createResult with
  | Except.error e => (errorContext e, false)
  | Except.ok _ => ({ doneClosed := false, errVal := none }, true)

/-- Context keys: the distinguished `SessionKey` pointer, or any other key. -/
inductive CtxKey where
  | sessionKey
  | other (name : String)
deriving DecidableEq, Repr

/-- Values stored in contexts. -/
inductive CtxValue where
  | session (s : Session)
  | value (v : String)
deriving DecidableEq, Repr

/-- The parts of the parent context a `sessionCtx` can observe: its deadline
(`none` when it has no deadline) and its key-value store. -/
structure ParentCtx where
  deadline : Option Int
  value : CtxKey → Option CtxValue

/-- Embedding of the `sessionCtx` struct (session.go lines 130-136) for the
`context.Context` interface methods: the session value, the parent context,
and the mutable state. -/
structure SessionCtx where
  session : Session
  ctx : ParentCtx
  state : CtxState

/-- `(*sessionCtx).Deadline` (session.go lines 148-150): delegates to the
parent context. -/
def SessionCtx.Deadline (s : SessionCtx) : Option Int := s.ctx.deadline

/-- `(*sessionCtx).Done` (session.go lines 152-154): the own done channel. -/
def SessionCtx.Done (s : SessionCtx) : Bool := s.state.doneClosed

/-- `(*sessionCtx).Err` (session.go lines 156-159): the atomic error cell. -/
def SessionCtx.Err (s : SessionCtx) : Option GoError := s.state.errVal

/-- `(*sessionCtx).Value` (session.go lines 161-166): the session value at
`SessionKey`, otherwise delegate to the parent context. -/
def SessionCtx.Value (s : SessionCtx) (k : CtxKey) : Option CtxValue :=
  if k = CtxKey.sessionKey then some (CtxValue.session s.session)
  else s.ctx.value k

/-- Embedding of the `Endpoint` struct from the endpoint source file appended
to `src/.circleci/config.yml`: registration ID, node name, network address
(`net.Addr`, modelled by its string form), tag list, node metadata map
(modelled as an association list), estimated round-trip time (`time.Duration`
nanoseconds), and the internal `expWeight` scratch field that the weighted
shuffle mutates in place.  `expWeight` is a `float64` in the source; it
enters the claims below only through the comparison order of sort keys, so
it is modelled as `Int`. -/
structure Endpoint where
  ID : String
  Node : String
  Addr : String
  Tags : List String
  Meta : List (String × String)
  RTT : Int
  expWeight : Int
deriving DecidableEq, Repr

/-- The externally observable fields of an `Endpoint`: everything except the
internal `expWeight` scratch field. -/
structure EndpointData where
  ID : String
  Node : String
  Addr : String
  Tags : List String
  Meta : List (String × String)
  RTT : Int
deriving DecidableEq, Repr

/-- Projection of an endpoint onto its observable fields. -/
def Endpoint.data (e : Endpoint) : EndpointData :=
  { ID := e.ID, Node := e.Node, Addr := e.Addr, Tags := e.Tags,
    Meta := e.Meta, RTT := e.RTT }

/-- Modelled from the spec: the `RoundRobin` rotation (§4.3) — the list
rotated so that the element at index `counter mod length` comes first. -/
def goRotate (E : List Endpoint) (k : Nat) : List Endpoint :=
  E.drop (k % E.length) ++ E.take (k % E.length)

/-- Whether an endpoint carries at least one of the preferred tags. -/
def hasPreferredTag (tags : List String) (e : Endpoint) : Bool :=
  e.Tags.any fun t => tags.contains t

/-- Modelled from the spec: the `PreferTags` stable partition (§4.3) —
endpoints matching at least one preferred tag precede those that do not,
relative order preserved within each part. -/
def tagPartition (tags : List String) (E : List Endpoint) : List Endpoint :=
  E.filter (hasPreferredTag tags) ++ E.filter fun e => ! hasPreferredTag tags e

/-- The swap `list[i], list[j] = list[j], list[i]` on a list, as performed by
the shuffle loops; out-of-range indices (which the loops never produce)
leave the list unchanged. -/
def listSwap (l : List Endpoint) (i j : Nat) : List Endpoint :=
  match l[i]?, l[j]? with
  | some a, some b => (l.set i b).set j a
  | _, _ => l

/-- Embedding of `func Shuffle` from the endpoint source file appended to
`src/.circleci/config.yml`: for each index `i` in order, draw
`j := rng.Intn(i+1)` and swap `list[i]` with `list[j]`.  The pseudo-random
source is the function `rand`; `Intn(i+1)` yields a value in `[0, i]`, which
an arbitrary draw is reduced into by `% (i + 1)`. -/
def Shuffle (rand : Nat → Nat) (l : List Endpoint) : List Endpoint :=
  (List.range l.length).foldl (fun acc i => listSwap acc i (rand i % (i + 1))) l

/-- The first loop of `func WeightedShuffle` (endpoint source appended to
`src/.circleci/config.yml`): each endpoint's `expWeight` field is overwritten
in place with `weightOf(list[i]) * rng.ExpFloat64()`.  The `float64` weights
and exponential draws are modelled as integers (`draws i` is the draw for
position `i`): only the comparison order of the products matters for the
claims below. -/
def setExpWeights (weightOf : Endpoint → Int) (draws : Nat → Int)
    (l : List Endpoint) : List Endpoint :=
  l.enum.map fun p => { p.2 with expWeight := weightOf p.2 * draws p.1 }

/-- Embedding of `func WeightedShuffle` (endpoint source appended to
`src/.circleci/config.yml`): overwrite every endpoint's `expWeight` scratch
field, then `sort.Sort(byExpWeight(list))` — sort ascending by `expWeight`
(`sort.Sort` promises some rearrangement sorted by `Less`; the embedding
realizes it with a merge sort). -/
def WeightedShuffle (weightOf : Endpoint → Int) (draws : Nat → Int)
    (l : List Endpoint) : List Endpoint :=
  (setExpWeights weightOf draws l).mergeSort fun a b =>
    decide (a.expWeight ≤ b.expWeight)

/-- Modelled from the spec: the balancing strategies of §4.3 with their
per-instance state (`balancer.go` is not among the sources; only its tests
are) — `RoundRobin` holds a counter, `PreferTags` its tag set,
`MultiBalancer` a sequence of strategies, `Shuffler` and `WeightedShuffler`
their (stateless) randomness and weight configuration.  The shuffle variants
are thin adapters over the source-embedded `Shuffle` and `WeightedShuffle`
above, as the spec states (§4.3). -/
inductive BalancerModel where
  | roundRobin (counter : Nat)
  | preferTags (tags : List String)
  | multi (balancers : List BalancerModel)
  | shuffler (rand : Nat → Nat)
  | weightedShuffler (weight : Endpoint → Int) (draws : Nat → Int)

mutual

/-- Modelled from the spec: `Balance(name, endpoints)` for each strategy
(§4.3), returning the reordered list together with the strategy's updated
state (only `RoundRobin` mutates: its counter advances by one per call). -/
def balanceModel : BalancerModel → String → List Endpoint →
    List Endpoint × BalancerModel
  | BalancerModel.roundRobin c, _, E =>
      (goRotate E c, BalancerModel.roundRobin (c + 1))
  | BalancerModel.preferTags tags, _, E =>
      (tagPartition tags E, BalancerModel.preferTags tags)
  | BalancerModel.multi bs, name, E =>
      let r := balanceList bs name E
      (r.1, BalancerModel.multi r.2)
  | BalancerModel.shuffler rand, _, E =>
      (Shuffle rand E, BalancerModel.shuffler rand)
  | BalancerModel.weightedShuffler w d, _, E =>
      (WeightedShuffle w d E, BalancerModel.weightedShuffler w d)

/-- Modelled from the spec: `MultiBalancer` applies its strategies left to
right, each receiving the previous strategy's output (§4.3). -/
def balanceList : List BalancerModel → String → List Endpoint →
    List Endpoint × List BalancerModel
  | [], _, E => (E, [])
  | b :: bs, name, E =>
      let r := balanceModel b name E
      let rs := balanceList bs name r.1
      (rs.1, r.2 :: rs.2)

end

/-- Iterate `balanceModel` a given number of times on the same input list,
threading the strategy state and collecting the outputs in order. -/
def balanceRuns (name : String) (E : List Endpoint) :
    BalancerModel → Nat → List (List Endpoint) × BalancerModel
  | b, 0 => ([], b)
  | b, n + 1 =>
      let r := balanceModel b name E
      let rs := balanceRuns name E r.2 n
      (r.1 :: rs.1, rs.2)

/-- Modelled from the spec: the per-service `LoadBalancer` (§4.4) — a factory
producing a fresh strategy instance and a mapping from service name to the
strategy instance constructed on first use. -/
structure LoadBalancer where
  New : BalancerModel
  table : List (String × BalancerModel)

/-- Modelled from the spec: `LoadBalancer.Balance` (§4.4) — look up the
strategy instance for the service name, constructing one via the factory if
absent, delegate to it, and store its updated state. -/
def LoadBalancer.Balance (lb : LoadBalancer) (name : String)
    (E : List Endpoint) : List Endpoint × LoadBalancer :=
  let b :=
    match lb.table.lookup name with
    | some b => b
    | none => lb.New
  let r := balanceModel b name E
  (r.1, { lb with table := (name, r.2) :: lb.table })

/-- A sample endpoint whose scratch field is zero. -/
def sampleEndpoint : Endpoint :=
  { ID := "e1", Node := "n1", Addr := "127.0.0.1:80", Tags := [],
    Meta := [], RTT := 0, expWeight := 0 }

/-- A sample session configuration with every optional field unset. -/
def sampleSession : Session :=
  { Name := "", ID := "", Behavior := "", LockDelay := 0, TTL := 0 }

/-- A sample parent context with a deadline and an empty key-value store. -/
def sampleParent : ParentCtx :=
  { deadline := some 5, value := fun _ => none }

/-- A sample session context over `sampleParent`. -/
def sampleSessionCtx : SessionCtx :=
  { session := sampleSession, ctx := sampleParent, state := initialCtxState }

theorem cancelWithError_of_fired (ld : Int) (sid : String) (e : GoError)
    (dr : Option GoError) (s : CtxState) (h : s.onceDone = true) :
    cancelWithError ld sid e dr s = s := by
  simp [cancelWithError, h]

theorem foldl_cancel_fired (ld : Int) (sid : String)
    (causes : List (GoError × Option GoError)) (s : CtxState)
    (h : s.onceDone = true) :
    causes.foldl (fun st p => cancelWithError ld sid p.1 p.2 st) s = s := by
  induction causes with
  | nil => rfl
  | cons p ps ih =>
      rw [List.foldl_cons, cancelWithError_of_fired ld sid p.1 p.2 s h]
      exact ih

/-- Claim C1: teardown executes at most once per session context — for any
nonempty sequence of cancellation causes applied to a fresh context, the
resulting state is exactly that of the first cause alone: one destroy-session
call is issued, the recorded terminal error is the first cause's error, the
done channel is closed, and every later cause leaves the state unchanged. -/
theorem cancelWithError_at_most_once (ld : Int) (sid : String)
    (c : GoError × Option GoError) (rest : List (GoError × Option GoError)) :
    ((c :: rest).foldl (fun st p => cancelWithError ld sid p.1 p.2 st)
        initialCtxState
      = cancelWithError ld sid c.1 c.2 initialCtxState) ∧
    destroyCalls ((c :: rest).foldl
        (fun st p => cancelWithError ld sid p.1 p.2 st)
        initialCtxState).trace = 1 ∧
    ((c :: rest).foldl (fun st p => cancelWithError ld sid p.1 p.2 st)
        initialCtxState).errVal = some c.1 ∧
    ((c :: rest).foldl (fun st p => cancelWithError ld sid p.1 p.2 st)
        initialCtxState).doneClosed = true := by
  have hfold : (c :: rest).foldl
      (fun st p => cancelWithError ld sid p.1 p.2 st) initialCtxState
      = cancelWithError ld sid c.1 c.2 initialCtxState := by
    rw [List.foldl_cons]
    exact foldl_cancel_fired ld sid rest _ rfl
  refine ⟨hfold, ?_, ?_, ?_⟩ <;> rw [hfold] <;> rfl

/-- Claim C2: on each tick of the renewal loop — a successful renew advances
the expiry deadline to `now + ttl`; a failed renew strictly before the
deadline continues the loop with deadline and state unchanged; a failed renew
at or past the deadline cancels the context with the renew error as its
terminal error and exits the loop. -/
theorem runTick_cases (ttl ld : Int) (sid : String) (deadline now : Int)
    (e : GoError) (dr : Option GoError) (st : CtxState) :
    (runTick ttl ld sid deadline now none dr st
      = TickOutcome.next (now + ttl) st) ∧
    (now < deadline →
      runTick ttl ld sid deadline now (some e) dr st
        = TickOutcome.next deadline st) ∧
    (deadline ≤ now →
      runTick ttl ld sid deadline now (some e) dr st
        = TickOutcome.stop (cancelWithError ld sid e dr st)) ∧
    (deadline ≤ now → st.onceDone = false →
      (cancelWithError ld sid e dr st).errVal = some e ∧
      (cancelWithError ld sid e dr st).doneClosed = true) := by
  refine ⟨rfl, ?_, ?_, ?_⟩
  · intro h
    simp [runTick, h]
  · intro h
    simp [runTick, Int.not_lt.mpr h]
  · intro _ h
    simp [cancelWithError, h]

theorem runTick_cases_witness :
    runTick 300 150 "sid" 7 0 (some (GoError.message "boom")) none
        initialCtxState
      = TickOutcome.next 7 initialCtxState ∧
    runTick 300 150 "sid" 0 5 (some (GoError.message "boom")) none
        initialCtxState
      = TickOutcome.stop
          (cancelWithError 150 "sid" (GoError.message "boom") none
            initialCtxState) ∧
    (cancelWithError 150 "sid" (GoError.message "boom") none
        initialCtxState).errVal = some (GoError.message "boom") :=
  ⟨(runTick_cases 300 150 "sid" 7 0 (GoError.message "boom") none
      initialCtxState).2.1 (by decide),
   (runTick_cases 300 150 "sid" 0 5 (GoError.message "boom") none
      initialCtxState).2.2.1 (by decide),
   ((runTick_cases 300 150 "sid" 0 5 (GoError.message "boom") none
      initialCtxState).2.2.2 (by decide) rfl).1⟩

/-- Claim C9: the renewal loop never cancels the session context on a
successful renew — even when the tick occurs at or after the previously
computed expiry deadline, a successful renew continues the loop with the
state unchanged (the context stays live) and the deadline advanced to
`now + ttl`. -/
theorem runTick_success_revives (ttl ld : Int) (sid : String)
    (deadline now : Int) (dr : Option GoError) (st : CtxState)
    (h : deadline ≤ now) :
    runTick ttl ld sid deadline now none dr st
      = TickOutcome.next (now + ttl) st := by
  simp [runTick]

theorem runTick_success_revives_witness :
    (0 : Int) ≤ 9 ∧
    runTick 300 150 "sid" 0 9 none none initialCtxState
      = TickOutcome.next 309 initialCtxState :=
  ⟨by decide, runTick_success_revives 300 150 "sid" 0 9 none
    initialCtxState (by decide)⟩

/-- Claim C4: the renewal loop's period is `TTL / 3` (Go truncating integer
division); each renew-session operation runs under a context whose deadline
equals that period and whose parent is the session context itself, so it is
done as soon as the session context is done. -/
theorem renewalLoop_shape (ttl elapsed : Int) :
    (renewalLoopOf ttl).period = Int.tdiv ttl 3 ∧
    (renewalLoopOf ttl).renewOp.timeout = (renewalLoopOf ttl).period ∧
    (renewalLoopOf ttl).renewOp.parent = CtxRef.session ∧
    timeoutCtxDone (renewalLoopOf ttl).renewOp true elapsed = true := by
  refine ⟨rfl, rfl, rfl, ?_⟩
  simp [timeoutCtxDone]

/-- Claim C5: teardown, whatever its cause, appends to the trace — in order —
the error store, the done-channel close, and a destroy-session write on a
fresh background-rooted context with deadline equal to the lock-delay; the
recorded terminal error is the cause's error, and the outcome is independent
of the destroy write's result. -/
theorem cancelWithError_teardown (ld : Int) (sid : String) (e : GoError)
    (dr : Option GoError) (st : CtxState) (h : st.onceDone = false) :
    (cancelWithError ld sid e dr st).trace
      = st.trace ++
        [Event.storeErr e, Event.closeDone,
         Event.destroySession
           { parent := CtxRef.background, timeout := ld } sid] ∧
    (cancelWithError ld sid e dr st).errVal = some e ∧
    (cancelWithError ld sid e dr st).doneClosed = true ∧
    (∀ dr2 : Option GoError,
      cancelWithError ld sid e dr st = cancelWithError ld sid e dr2 st) := by
  refine ⟨?_, ?_, ?_, fun dr2 => rfl⟩ <;> simp [cancelWithError, h]

theorem cancelWithError_teardown_witness :
    (cancelWithError 150 "sid" GoError.canceled none initialCtxState).trace
      = [Event.storeErr GoError.canceled, Event.closeDone,
         Event.destroySession
           { parent := CtxRef.background, timeout := 150 } "sid"] ∧
    (cancelWithError 150 "sid" GoError.canceled none
        initialCtxState).errVal = some GoError.canceled :=
  ⟨((cancelWithError_teardown 150 "sid" GoError.canceled none
      initialCtxState rfl).1).trans (by decide),
   (cancelWithError_teardown 150 "sid" GoError.canceled none
      initialCtxState rfl).2.1⟩

/-- Claim C6: when the create-session operation fails, `WithSession` returns
an already-cancelled derived context whose error accessor yields the creation
error, and no background renewal task is started. -/
theorem withSession_createError (s : Session) (e : GoError) :
    withSession s (Except.error e) = (errorContext e, false) ∧
    (errorContext e).doneClosed = true ∧
    (errorContext e).errVal = some e :=
  ⟨rfl, rfl, rfl⟩

/-- Claim C10: the session context overrides only `Done()`, `Err()` and
`Value(SessionKey)` — `Deadline()` returns the parent context's deadline,
`Value` at any key other than `SessionKey` delegates to the parent unchanged,
and `Value(SessionKey)` yields the session. -/
theorem sessionCtx_frame (s : SessionCtx) (k : CtxKey)
    (hk : k ≠ CtxKey.sessionKey) :
    s.Deadline = s.ctx.deadline ∧
    s.Value k = s.ctx.value k ∧
    s.Value CtxKey.sessionKey = some (CtxValue.session s.session) := by
  refine ⟨rfl, ?_, rfl⟩
  simp [SessionCtx.Value, hk]

theorem sessionCtx_frame_witness :
    sampleSessionCtx.Value (CtxKey.other "k") = none ∧
    sampleSessionCtx.Deadline = some 5 := by
  have h := sessionCtx_frame sampleSessionCtx (CtxKey.other "k") (by decide)
  exact ⟨h.2.1.trans rfl, h.1.trans rfl⟩

theorem goRotate_perm (E : List Endpoint) (k : Nat) :
    (goRotate E k).Perm E := by
  rw [goRotate]
  exact List.perm_append_comm.trans
    (by rw [List.take_append_drop])

theorem tagPartition_perm (tags : List String) (E : List Endpoint) :
    (tagPartition tags E).Perm E :=
  List.filter_append_perm _ E

theorem head_swap_perm {α : Type} :
    ∀ (t : List α) (k : Nat) (hk : k < t.length) (a : α),
      (t.get ⟨k, hk⟩ :: t.set k a).Perm (a :: t)
  | b :: u, 0, _, a => by
      simp only [List.get_eq_getElem, List.getElem_cons_zero,
        List.set_cons_zero]
      exact List.Perm.swap a b u
  | b :: u, k + 1, hk, a => by
      simp only [List.get_eq_getElem, List.getElem_cons_succ,
        List.set_cons_succ]
      have hku : k < u.length := by simpa using hk
      have ih := head_swap_perm u k hku a
      simp only [List.get_eq_getElem] at ih
      exact (List.Perm.swap b u[k] (u.set k a)).trans
        ((ih.cons b).trans (List.Perm.swap a b u))

theorem set_swap_perm {α : Type} :
    ∀ (l : List α) (i j : Nat) (hi : i < l.length) (hj : j < l.length),
      ((l.set i (l.get ⟨j, hj⟩)).set j (l.get ⟨i, hi⟩)).Perm l
  | _ :: _, 0, 0, _, _ => by
      simp
  | a :: t, 0, k + 1, hi, hj => by
      simp only [List.get_eq_getElem, List.getElem_cons_succ,
        List.getElem_cons_zero, List.set_cons_zero, List.set_cons_succ]
      have hkt : k < t.length := by simpa using hj
      have h := head_swap_perm t k hkt a
      simpa using h
  | a :: t, m + 1, 0, hi, hj => by
      simp only [List.get_eq_getElem, List.getElem_cons_succ,
        List.getElem_cons_zero, List.set_cons_zero, List.set_cons_succ]
      have hmt : m < t.length := by simpa using hi
      have h := head_swap_perm t m hmt a
      simpa using h
  | a :: t, m + 1, k + 1, hi, hj => by
      simp only [List.get_eq_getElem, List.getElem_cons_succ,
        List.set_cons_succ]
      have hmt : m < t.length := by simpa using hi
      have hkt : k < t.length := by simpa using hj
      have h := set_swap_perm t m k hmt hkt
      simp only [List.get_eq_getElem] at h
      exact h.cons a

theorem listSwap_perm (l : List Endpoint) (i j : Nat) :
    (listSwap l i j).Perm l := by
  unfold listSwap
  split
  · next a b ha hb =>
      obtain ⟨hia, hga⟩ := List.getElem?_eq_some_iff.mp ha
      obtain ⟨hjb, hgb⟩ := List.getElem?_eq_some_iff.mp hb
      subst hga
      subst hgb
      have h := set_swap_perm l i j hia hjb
      simpa using h
  · exact List.Perm.refl l

theorem foldl_listSwap_perm (f : Nat → Nat) (idxs : List Nat)
    (l : List Endpoint) :
    (idxs.foldl (fun acc i => listSwap acc i (f i)) l).Perm l := by
  induction idxs generalizing l with
  | nil => exact List.Perm.refl l
  | cons i is ih => exact (ih (listSwap l i (f i))).trans (listSwap_perm l i (f i))

theorem Shuffle_perm (rand : Nat → Nat) (l : List Endpoint) :
    (Shuffle rand l).Perm l := by
  rw [Shuffle]
  exact foldl_listSwap_perm (fun i => rand i % (i + 1)) (List.range l.length) l

theorem map_data_setExpWeights (w : Endpoint → Int) (d : Nat → Int)
    (l : List Endpoint) :
    (setExpWeights w d l).map Endpoint.data = l.map Endpoint.data := by
  rw [setExpWeights, List.map_map]
  have he : (Endpoint.data ∘ fun p : Nat × Endpoint =>
      { p.2 with expWeight := w p.2 * d p.1 }) = Endpoint.data ∘ Prod.snd :=
    funext fun p => rfl
  rw [he, ← List.map_map, List.enum_map_snd]

theorem WeightedShuffle_data_perm (w : Endpoint → Int) (d : Nat → Int)
    (l : List Endpoint) :
    ((WeightedShuffle w d l).map Endpoint.data).Perm (l.map Endpoint.data) := by
  rw [WeightedShuffle]
  exact ((List.mergeSort_perm _ _).map Endpoint.data).trans
    (by rw [map_data_setExpWeights])

mutual

theorem balanceModel_data_perm (b : BalancerModel) (name : String)
    (E : List Endpoint) :
    ((balanceModel b name E).1.map Endpoint.data).Perm
      (E.map Endpoint.data) := by
  cases b with
  | roundRobin c =>
      simpa [balanceModel] using (goRotate_perm E c).map Endpoint.data
  | preferTags tags =>
      simpa [balanceModel] using (tagPartition_perm tags E).map Endpoint.data
  | multi bs => simpa [balanceModel] using balanceList_data_perm bs name E
  | shuffler rand =>
      simpa [balanceModel] using (Shuffle_perm rand E).map Endpoint.data
  | weightedShuffler w d =>
      simpa [balanceModel] using WeightedShuffle_data_perm w d E

theorem balanceList_data_perm (bs : List BalancerModel) (name : String)
    (E : List Endpoint) :
    ((balanceList bs name E).1.map Endpoint.data).Perm
      (E.map Endpoint.data) := by
  cases bs with
  | nil => simpa [balanceList] using List.Perm.refl (E.map Endpoint.data)
  | cons b rest =>
      have h1 := balanceModel_data_perm b name E
      have h2 := balanceList_data_perm rest name (balanceModel b name E).1
      simpa [balanceList] using h2.trans h1

end

/-- Claim C7 counterexample: the weighted-shuffle strategy overwrites each
endpoint's `expWeight` scratch field before sorting, so on a single endpoint
with scratch field 0, weight 1 and draw 1 the output is not a permutation of
the input when endpoints are compared as whole values — the claim's "no
endpoint's contents changed" fails for the scratch field. -/
theorem weightedShuffle_changes_contents :
    ¬ ((balanceModel
        (BalancerModel.weightedShuffler (fun _ => 1) (fun _ => 1))
        "svc" [sampleEndpoint]).1.Perm [sampleEndpoint]) := by
  have h : (balanceModel
      (BalancerModel.weightedShuffler (fun _ => 1) (fun _ => 1))
      "svc" [sampleEndpoint]).1
      = [{ sampleEndpoint with expWeight := 1 }] := by
    simp [balanceModel, WeightedShuffle, setExpWeights, List.enum]
  rw [h, List.perm_singleton]
  simp [sampleEndpoint]

/-- Claim C7 (amended: up to the internal `expWeight` scratch field, which
the weighted shuffle overwrites on every endpoint): every balancing strategy
(rotation, tag affinity, composition, uniform shuffle, weighted shuffle) and
the per-service load balancer return, for every service name and input list,
a permutation of the input endpoints' observable contents — the multiset of
endpoints with the scratch field disregarded is preserved, only the order
changes; the rotation, tag-affinity and uniform-shuffle strategies moreover
permute the full endpoint values. -/
theorem balance_preserves_endpoint_data :
    (∀ (b : BalancerModel) (name : String) (E : List Endpoint),
      ((balanceModel b name E).1.map Endpoint.data).Perm
        (E.map Endpoint.data)) ∧
    (∀ (lb : LoadBalancer) (name : String) (E : List Endpoint),
      ((lb.Balance name E).1.map Endpoint.data).Perm
        (E.map Endpoint.data)) ∧
    (∀ (c : Nat) (name : String) (E : List Endpoint),
      (balanceModel (BalancerModel.roundRobin c) name E).1.Perm E) ∧
    (∀ (tags : List String) (name : String) (E : List Endpoint),
      (balanceModel (BalancerModel.preferTags tags) name E).1.Perm E) ∧
    (∀ (rand : Nat → Nat) (name : String) (E : List Endpoint),
      (balanceModel (BalancerModel.shuffler rand) name E).1.Perm E) := by
  refine ⟨balanceModel_data_perm, fun lb name E => ?_, fun c name E => ?_,
    fun tags name E => ?_, fun rand name E => ?_⟩
  · simpa [LoadBalancer.Balance] using balanceModel_data_perm _ name E
  · simpa [balanceModel] using goRotate_perm E c
  · simpa [balanceModel] using tagPartition_perm tags E
  · simpa [balanceModel] using Shuffle_perm rand E

theorem goRotate_mod (E : List Endpoint) (k : Nat) :
    goRotate E (k % E.length) = goRotate E k := by
  simp [goRotate, Nat.mod_mod_of_dvd k (dvd_refl E.length)]

theorem balanceRuns_roundRobin (name : String) (E : List Endpoint)
    (c n : Nat) :
    balanceRuns name E (BalancerModel.roundRobin c) n
      = (((List.range n).map fun i => goRotate E (c + i)),
         BalancerModel.roundRobin (c + n)) := by
  induction n generalizing c with
  | zero => simp [balanceRuns]
  | succ n ih =>
      rw [balanceRuns]
      simp only [balanceModel, ih (c + 1), List.range_succ_eq_map,
        List.map_cons, List.map_map, Prod.mk.injEq]
      constructor
      · congr 1
        apply List.map_congr_left
        intro i _
        simp only [Function.comp_apply]
        congr 1
        omega
      · congr 1
        omega

theorem range_map_add_mod_perm (N c : Nat) :
    ((List.range N).map fun i => (c + i) % N).Perm (List.range N) := by
  induction c with
  | zero =>
      have he : ((List.range N).map fun i => (0 + i) % N) = List.range N := by
        have : ∀ i ∈ List.range N, (0 + i) % N = i := by
          intro i hi
          rw [Nat.zero_add]
          exact Nat.mod_eq_of_lt (List.mem_range.mp hi)
        rw [List.map_congr_left this]
        simp
      rw [he]
  | succ c ih =>
      have h1 : ((List.range (N + 1)).map fun i => (c + i) % N)
          = ((c + 0) % N) :: ((List.range N).map fun i => (c + 1 + i) % N) := by
        rw [List.range_succ_eq_map, List.map_cons, List.map_map]
        refine congrArg (_ :: ·) ?_
        apply List.map_congr_left
        intro i _
        simp only [Function.comp_apply]
        congr 1
        omega
      have h2 : ((List.range (N + 1)).map fun i => (c + i) % N)
          = ((List.range N).map fun i => (c + i) % N) ++ [(c + 0) % N] := by
        rw [List.range_succ, List.map_append, List.map_singleton,
          Nat.add_zero, Nat.add_mod_right]
      have key : ((c + 0) % N) :: ((List.range N).map fun i => (c + 1 + i) % N)
          = ((List.range N).map fun i => (c + i) % N) ++ [(c + 0) % N] := by
        rw [← h1, h2]
      have p1 : (((c + 0) % N) ::
            ((List.range N).map fun i => (c + 1 + i) % N)).Perm
          (((c + 0) % N) :: ((List.range N).map fun i => (c + i) % N)) := by
        rw [key]
        exact List.perm_append_singleton _ _
      exact ((List.perm_cons _).mp p1).trans ih

/-- Claim C8: each call of the rotation strategy advances its counter by one
and returns the input rotated so that the element at index
`counter mod length` comes first; over `length` consecutive calls on a fixed
input the outputs are exactly the `length` rotations of the input, each
occurring once. -/
theorem roundRobin_periodicity (c : Nat) (name : String) (E : List Endpoint) :
    (balanceModel (BalancerModel.roundRobin c) name E).2
      = BalancerModel.roundRobin (c + 1) ∧
    (balanceModel (BalancerModel.roundRobin c) name E).1.head?
      = E[c % E.length]? ∧
    (balanceRuns name E (BalancerModel.roundRobin c) E.length).1.Perm
      ((List.range E.length).map fun k => goRotate E k) := by
  refine ⟨by simp [balanceModel], ?_, ?_⟩
  · show (balanceModel (BalancerModel.roundRobin c) name E).1.head?
      = E[c % E.length]?
    rcases eq_or_ne E [] with hE | hE
    · subst hE
      simp [balanceModel, goRotate]
    · have hpos : 0 < E.length := List.length_pos.mpr hE
      have hk : c % E.length < E.length := Nat.mod_lt _ hpos
      simp only [balanceModel, goRotate, List.head?_append, List.head?_drop]
      rw [List.getElem?_eq_getElem hk]
      rfl
  · have houts : (balanceRuns name E (BalancerModel.roundRobin c)
        E.length).1 = (List.range E.length).map fun i => goRotate E (c + i) :=
      congrArg Prod.fst (balanceRuns_roundRobin name E c E.length)
    rw [houts]
    have hm : ((List.range E.length).map fun i => goRotate E (c + i))
        = (List.range E.length).map
            ((fun k => goRotate E k) ∘ fun i => (c + i) % E.length) := by
      apply List.map_congr_left
      intro i _
      exact (goRotate_mod E (c + i)).symm
    rw [hm, ← List.map_map]
    exact (range_map_add_mod_perm E.length c).map _

end Consul
